import Mathlib

/-!
Verification development for the PoIT capture-pipeline browser extension
(`ext_bolag`: `injected.js`, `content.js`, `background.js`).

The JavaScript source is shallowly embedded: each JS function used by the
specification is translated into an executable Lean definition operating on
`String` / `List` / `Nat` data.  Browser platform primitives that the code
calls (`String.prototype.toLowerCase`, the WHATWG `URL` constructor,
`JSON.parse`, ...) are modelled by executable Lean functions restricted to
the character/URL/grammar fragment the extension actually meets; each such
model is marked in its doc comment.
-/

set_option maxRecDepth 8192

namespace PoIT

/-! ## JS string primitives -/

/-- Model of `String.prototype.toLowerCase` for one character, restricted to
ASCII letters plus the Swedish letters Å/Ä/Ö that occur in this codebase. -/
def jsCharToLower (c : Char) : Char :=
  if 'A' ≤ c && c ≤ 'Z' then Char.ofNat (c.toNat + 32)
  else if c = 'Å' then 'å'
  else if c = 'Ä' then 'ä'
  else if c = 'Ö' then 'ö'
  else c

/-- Model of `String.prototype.toUpperCase` for one character (same fragment). -/
def jsCharToUpper (c : Char) : Char :=
  if 'a' ≤ c && c ≤ 'z' then Char.ofNat (c.toNat - 32)
  else if c = 'å' then 'Å'
  else if c = 'ä' then 'Ä'
  else if c = 'ö' then 'Ö'
  else c

/-- Model of `String.prototype.toLowerCase`. -/
def jsToLower (s : String) : String := String.mk (s.data.map jsCharToLower)

/-- Model of `String.prototype.toUpperCase`. -/
def jsToUpper (s : String) : String := String.mk (s.data.map jsCharToUpper)

/-- Model of `String.prototype.trim`. -/
def jsTrim (s : String) : String :=
  String.mk (((s.data.dropWhile Char.isWhitespace).reverse.dropWhile Char.isWhitespace).reverse)

/-- Does the character list start with the given pattern (case sensitive)? -/
def startsWithChars : List Char → List Char → Bool
  | _, [] => true
  | [], _ :: _ => false
  | c :: cs, d :: ds => c = d && startsWithChars cs ds

/-- Model of `String.prototype.startsWith`. -/
def jsStartsWith (s pre : String) : Bool := startsWithChars s.data pre.data

/-- Does `sub` occur as a contiguous run somewhere in the list? -/
def hasSubChars : List Char → List Char → Bool
  | [], sub => sub.isEmpty
  | c :: cs, sub => startsWithChars (c :: cs) sub || hasSubChars cs sub

/-- Model of `String.prototype.includes`. -/
def jsIncludes (s sub : String) : Bool := hasSubChars s.data sub.data

/-- Model of `String.prototype.replace("/", "-")`: a *string* (non-regex)
pattern replaces only the first occurrence. -/
def replaceFirstSlashChars : List Char → List Char
  | [] => []
  | c :: cs => if c = '/' then '-' :: cs else c :: replaceFirstSlashChars cs

/-- `s.replace("/", "-")` as called in `background.js` and `content.js`. -/
def replaceFirstSlash (s : String) : String := String.mk (replaceFirstSlashChars s.data)

/-- Case-insensitive prefix match (under `jsCharToLower`), returning the rest
of the list after the matched prefix. -/
def ciDropPrefixChars : List Char → List Char → Option (List Char)
  | l, [] => some l
  | [], _ :: _ => none
  | c :: cs, d :: ds =>
    if jsCharToLower c = jsCharToLower d then ciDropPrefixChars cs ds else none

/-- Membership test used to model JS `Set.prototype.has` on string sets. -/
def setHas (l : List String) (x : String) : Bool := decide (x ∈ l)

/-- Removal used to model JS `Set.prototype.delete` on string sets. -/
def eraseStr : List String → String → List String
  | [], _ => []
  | y :: ys, x => if y = x then ys else y :: eraseStr ys x

/-! ## JS values

The sanitizer in `background.js` inspects entry fields whose JS values may be
strings or arbitrary other values.  For the operations the code performs
(truthiness tests, `typeof x === "string"`, string methods) it suffices to
record either the string or the truthiness of a non-string value. -/

/-- A JS value as observed by the sanitizer: a string, or any non-string
value of which only the truthiness matters (`vother false` also stands for
`undefined`/`null`/a missing field). -/
inductive JSVal where
  | vstr (s : String)
  | vother (truthy : Bool)
deriving DecidableEq

/-- JS truthiness. -/
def JSVal.truthy : JSVal → Bool
  | .vstr s => s ≠ ""
  | .vother t => t

/-- Model of the JS `||` operator on values. -/
def jsOr (a b : JSVal) : JSVal := if a.truthy then a else b

/-! ## `background.js` — relay / sanitizer -/

/-- `NAME_EXCLUDE_KEYWORDS` (background.js line 4). -/
def NAME_EXCLUDE_KEYWORDS : List String := ["förening", "holding"]

/-- `urlContainsEnskild` (background.js lines 7-9, and the identical helper in
content.js lines 51-54): case-insensitive substring test for `/enskild/`. -/
def urlContainsEnskild (url : String) : Bool := jsIncludes (jsToLower url) "/enskild/"

/-- `normalizeCompanyName` (background.js lines 11-14): strip all whitespace,
strip all digits, lowercase; non-strings map to `""`. -/
def normalizeCompanyName : JSVal → String
  | .vstr s =>
    jsToLower (String.mk ((s.data.filter (fun c => !c.isWhitespace)).filter (fun c => !c.isDigit)))
  | _ => ""

/-- `shouldSkipCompany` (background.js lines 16-20). -/
def shouldSkipCompany : JSVal → Bool
  | .vstr s => NAME_EXCLUDE_KEYWORDS.any (fun kw => jsIncludes (jsToLower s) kw)
  | _ => false

/-- The fields of a list entry that `sanitizeCompanyList` reads.  Fields the
code never touches are irrelevant to its behaviour and are not modelled. -/
structure CompanyEntry where
  namn : JSVal
  company_name : JSVal
  companyName : JSVal
  title : JSVal
  kungorelseid : JSVal
  kungorelseId : JSVal
deriving DecidableEq

/-- An element of the incoming list: a JS object (seen through the fields the
sanitizer reads) or a non-object value, which the loop pushes through. -/
inductive Item where
  | obj (e : CompanyEntry)
  | prim (v : JSVal)
deriving DecidableEq

/-- `entry.namn || entry.company_name || entry.companyName || entry.title`
(background.js lines 35-36). -/
def rawNameOf (e : CompanyEntry) : JSVal :=
  jsOr e.namn (jsOr e.company_name (jsOr e.companyName e.title))

/-- `entry.kungorelseid || entry.kungorelseId` (background.js line 41). -/
def rawIdOf (e : CompanyEntry) : JSVal := jsOr e.kungorelseid e.kungorelseId

/-- The id normalization `rawId.trim().toUpperCase().replace("/", "-")`
(background.js lines 42-45). -/
def jsNormalizeId (s : String) : String := replaceFirstSlash (jsToUpper (jsTrim s))

/-- `typeof rawId === "string" ? rawId.trim().toUpperCase().replace("/", "-") : ""`. -/
def normalizedIdOf (e : CompanyEntry) : String :=
  match rawIdOf e with
  | .vstr s => jsNormalizeId s
  | _ => ""

/-- The loop body of `sanitizeCompanyList` (background.js lines 29-58), with
the two `seen` sets made explicit. -/
def sanitizeLoop : List Item → List String → List String → List Item
  | [], _, _ => []
  | .prim v :: rest, seenIds, seenNames => .prim v :: sanitizeLoop rest seenIds seenNames
  | .obj e :: rest, seenIds, seenNames =>
    if shouldSkipCompany (rawNameOf e) then
      sanitizeLoop rest seenIds seenNames
    else if normalizedIdOf e ≠ "" && setHas seenIds (normalizedIdOf e) then
      sanitizeLoop rest seenIds seenNames
    else if normalizeCompanyName (rawNameOf e) ≠ "" &&
        setHas seenNames (normalizeCompanyName (rawNameOf e)) then
      sanitizeLoop rest seenIds seenNames
    else
      .obj e ::
        sanitizeLoop rest
          (if normalizedIdOf e ≠ "" then normalizedIdOf e :: seenIds else seenIds)
          (if normalizeCompanyName (rawNameOf e) ≠ "" then
            normalizeCompanyName (rawNameOf e) :: seenNames
          else seenNames)

/-- `sanitizeCompanyList` (background.js lines 22-61) on an array input.  The
non-array case returns the input unchanged and is handled at the
`sanitizePayload` level. -/
def sanitizeCompanyList (items : List Item) : List Item := sanitizeLoop items [] []

/-- The normalized id of an object item, `none` for non-objects. -/
def itemObjId : Item → Option String
  | .obj e => some (normalizedIdOf e)
  | .prim _ => none

/-- The `data` field of an incoming payload as `sanitizePayload` classifies it:
an array (`Array.isArray(cloned.data)`), a truthy object whose own `data`
field is an array (with its remaining fields kept in `meta`), or anything
else, which the function leaves alone. -/
inductive DataField where
  | list (items : List Item)
  | wrapped (inner : List Item) (meta : List (String × JSVal))
  | other (v : JSVal)
deriving DecidableEq

/-- An object payload as received by `postToLocal`: the fields the Relay reads
(`data`), a representative untouched field (`url`), and the remaining fields
(`extra`), which spread-cloning preserves. -/
structure PayloadObj where
  url : String
  data : DataField
  extra : List (String × JSVal)
deriving DecidableEq

/-- `sanitizePayload` (background.js lines 63-81) on an object payload.
`cloned = {...payload}` copies every field; only `data` (or `data.data`) is
then replaced.  A non-object payload is returned unchanged by the first
guard and is not modelled further. -/
def sanitizePayload (p : PayloadObj) : PayloadObj :=
  match p.data with
  | .list items => ⟨p.url, .list (sanitizeCompanyList items), p.extra⟩
  | .wrapped inner meta => ⟨p.url, .wrapped (sanitizeCompanyList inner) meta, p.extra⟩
  | .other _ => p

/-! ## `injected.js` — hook layer -/

/-- `TARGET_HOST` (injected.js line 4). -/
def TARGET_HOST : String := "poit.bolagsverket.se"

/-- `shouldIgnoreUrl` (injected.js lines 15-25). -/
def shouldIgnoreUrl (url : String) : Bool :=
  let lowerUrl := jsToLower url
  jsStartsWith lowerUrl "chrome://" ||
  jsStartsWith lowerUrl "chrome-extension://" ||
  jsStartsWith lowerUrl "file://" ||
  jsStartsWith lowerUrl "moz-extension://" ||
  jsStartsWith lowerUrl "edge://" ||
  jsStartsWith lowerUrl "about:" ||
  jsStartsWith lowerUrl "data:"

/-- Hostname and pathname of a parsed URL (the two components `isTargetUrl`
reads from the WHATWG `URL` object). -/
structure URLRec where
  hostname : String
  pathname : String
deriving DecidableEq

/-- Is `c` allowed inside a URL scheme after the first letter? -/
def isSchemeChar (c : Char) : Bool :=
  c.isAlpha || c.isDigit || c = '+' || c = '-' || c = '.'

/-- Split a leading `scheme:` off the character list. -/
def schemeSplitAux : List Char → List Char → Option (String × List Char)
  | acc, ':' :: rest => some (String.mk acc.reverse, rest)
  | acc, c :: rest => if isSchemeChar c then schemeSplitAux (c :: acc) rest else none
  | _, [] => none

/-- Recognize `scheme:` at the start of a URL string (first char a letter). -/
def schemeSplit : List Char → Option (String × List Char)
  | c :: rest => if c.isAlpha then schemeSplitAux [c] rest else none
  | [] => none

/-- Take characters until one of `stops` (the stop char stays in the rest). -/
def takeUntilStops (stops : List Char) : List Char → List Char × List Char
  | [] => ([], [])
  | c :: cs =>
    if stops.contains c then ([], c :: cs)
    else
      let p := takeUntilStops stops cs
      (c :: p.1, p.2)

/-- WHATWG special schemes (nonempty host required, empty path serializes
as "/"). -/
def isSpecialScheme (s : String) : Bool :=
  s = "http" || s = "https" || s = "ws" || s = "wss" || s = "ftp" || s = "file"

/-- Split a character list on a separator character. -/
def splitOnCharAux (sep : Char) (acc : List Char) : List Char → List (List Char)
  | [] => [acc.reverse]
  | c :: cs =>
    if c = sep then acc.reverse :: splitOnCharAux sep [] cs
    else splitOnCharAux sep (c :: acc) cs

/-- Split a character list on a separator character (like `String.splitOn`
for a one-character separator). -/
def splitOnChar (sep : Char) (l : List Char) : List (List Char) := splitOnCharAux sep [] l

/-- Hostname from an authority component: strip `userinfo@` and `:port`,
lowercase.  IPv6 bracket literals are outside the modelled fragment. -/
def hostFromAuthority (auth : String) : Option String :=
  let hp := (splitOnChar '@' auth.data).getLastD auth.data
  let host := String.mk (hp.takeWhile (fun c => c ≠ ':'))
  if host = "" then none else some (jsToLower host)

/-- Remove `.` and `..` path segments (WHATWG path normalization), tracking
whether a trailing slash must be kept. -/
def removeDotSegs : List String → List String → Bool → List String × Bool
  | acc, [], trail => (acc.reverse, trail)
  | acc, seg :: rest, _ =>
    if seg = "." then removeDotSegs acc rest true
    else if seg = ".." then removeDotSegs acc.tail rest true
    else removeDotSegs (seg :: acc) rest false

/-- Normalize a rooted path string by removing dot segments. -/
def normalizePathStr (p : String) : String :=
  match p.data with
  | '/' :: _ =>
    let segs := ((splitOnChar '/' p.data).drop 1).map String.mk
    let r := removeDotSegs [] segs false
    if r.1.isEmpty then "/"
    else "/" ++ String.intercalate "/" r.1 ++ (if r.2 then "/" else "")
  | _ => p

/-- The path component starting at `rest` (which begins with `/`, `?`, `#`,
or is empty); query and fragment are cut off, an empty path becomes "/". -/
def pathAndAfter (rest : List Char) : String :=
  match rest with
  | '/' :: _ => String.mk (takeUntilStops ['?', '#'] rest).1
  | _ => "/"

/-- The directory part of a path: everything up to and including the last
slash (used for relative reference resolution). -/
def dirOf (p : String) : String :=
  String.mk ((p.data.reverse.dropWhile (fun c => c ≠ '/')).reverse)

/-- Model of the WHATWG `URL` constructor on an absolute URL, restricted to
the hostname and pathname components and to the URL shapes the page can
produce (no IPv6 literals, no percent-decoding).  Returns `none` where the
constructor throws. -/
def jsURLabs (url : String) : Option URLRec :=
  match schemeSplit url.data with
  | none => none
  | some (scheme, rest) =>
    let sl := jsToLower scheme
    match rest with
    | '/' :: '/' :: rest2 =>
      let p := takeUntilStops ['/', '?', '#'] rest2
      match hostFromAuthority (String.mk p.1) with
      | none => if isSpecialScheme sl then none else some ⟨"", normalizePathStr (pathAndAfter p.2)⟩
      | some h => some ⟨h, normalizePathStr (pathAndAfter p.2)⟩
    | _ => some ⟨"", String.mk (takeUntilStops ['?', '#'] rest).1⟩

/-- Model of `new URL(url, base)` (injected.js line 32): absolute URLs parse
directly; otherwise the reference is resolved against `base`
(protocol-relative, path-absolute, or path-relative). -/
def jsURL (url : String) (base : String) : Option URLRec :=
  match schemeSplit url.data with
  | some _ => jsURLabs url
  | none =>
    match jsURLabs base with
    | none => none
    | some b =>
      match url.data with
      | '/' :: '/' :: rest2 =>
        let p := takeUntilStops ['/', '?', '#'] rest2
        match hostFromAuthority (String.mk p.1) with
        | none => none
        | some h => some ⟨h, normalizePathStr (pathAndAfter p.2)⟩
      | '/' :: _ =>
        some ⟨b.hostname, normalizePathStr (String.mk (takeUntilStops ['?', '#'] url.data).1)⟩
      | _ =>
        let rel := String.mk (takeUntilStops ['?', '#'] url.data).1
        if rel = "" then some b
        else some ⟨b.hostname, normalizePathStr (dirOf b.pathname ++ rel)⟩

/-- Is `c` an ASCII letter?  With the regex `i` flag, `[a-z]` matches both
cases. -/
def isAsciiLetter (c : Char) : Bool := c.isAlpha

/-- After `sok`, the regex `[a-z]*?kung` (lazy letters, then `kung`,
case-insensitively): succeed iff `kung` occurs after zero or more ASCII
letters. -/
def lettersThenKung : List Char → Bool
  | [] => false
  | c :: cs =>
    (ciDropPrefixChars (c :: cs) "kung".data).isSome || (isAsciiLetter c && lettersThenKung cs)

/-- Match `\/poit\/rest\/sok[a-z]*?kung[a-z]*` (case-insensitive) anchored at
the head of the list. -/
def sokKungAt (l : List Char) : Bool :=
  match ciDropPrefixChars l "/poit/rest/sok".data with
  | none => false
  | some rest => lettersThenKung rest

/-- Unanchored scan for the endpoint pattern (regex `test`, injected.js
lines 36-37). -/
def sokKungScan : List Char → Bool
  | [] => false
  | c :: cs => sokKungAt (c :: cs) || sokKungScan cs

/-- The endpoint-path pattern test `/\/poit\/rest\/sok[a-z]*?kung[a-z]*/i`. -/
def pathPatternTest (p : String) : Bool := sokKungScan p.data

/-- `isTargetUrl` (injected.js lines 27-41); `pageHref` is the document URL
used as the base for resolution (`window.location.href`).  The `catch`
branch (URL constructor throws) yields `false`. -/
def isTargetUrl (url : String) (pageHref : String) : Bool :=
  if shouldIgnoreUrl url then false
  else
    match jsURL url pageHref with
    | none => false
    | some u => u.hostname = TARGET_HOST && pathPatternTest u.pathname

/-! ### JSON (model of `JSON.parse` / `Response.json` success) -/

/-- Skip JSON whitespace. -/
def skipWs : List Char → List Char
  | c :: cs => if c = ' ' || c = '\t' || c = '\n' || c = '\r' then skipWs cs else c :: cs
  | [] => []

/-- Is `c` an ASCII hex digit? -/
def isHexDigitChar (c : Char) : Bool :=
  c.isDigit || ('a' ≤ c && c ≤ 'f') || ('A' ≤ c && c ≤ 'F')

/-- Consume the remainder of a JSON string literal (opening quote already
consumed); fuel bounds the number of consumed characters. -/
def jsonStrRest : Nat → List Char → Option (List Char)
  | 0, _ => none
  | _ + 1, [] => none
  | _ + 1, '"' :: cs => some cs
  | fuel + 1, '\\' :: rest =>
    match rest with
    | [] => none
    | c :: cs =>
      if c = 'u' then
        match cs with
        | h1 :: h2 :: h3 :: h4 :: cs2 =>
          if isHexDigitChar h1 && isHexDigitChar h2 && isHexDigitChar h3 && isHexDigitChar h4 then
            jsonStrRest fuel cs2
          else none
        | _ => none
      else if c = '"' || c = '\\' || c = '/' || c = 'b' || c = 'f' || c = 'n' ||
          c = 'r' || c = 't' then
        jsonStrRest fuel cs
      else none
  | fuel + 1, c :: cs => if c.toNat < 32 then none else jsonStrRest fuel cs

/-- Consume a maximal run of ASCII digits. -/
def dropDigits : List Char → List Char
  | c :: cs => if c.isDigit then dropDigits cs else c :: cs
  | [] => []

/-- Optional JSON fraction part. -/
def jsonFrac : List Char → Option (List Char)
  | '.' :: rest =>
    match rest with
    | c :: cs => if c.isDigit then some (dropDigits cs) else none
    | [] => none
  | l => some l

/-- Optional JSON exponent part. -/
def jsonExp : List Char → Option (List Char)
  | e :: rest =>
    if e = 'e' || e = 'E' then
      match rest with
      | s :: r2 =>
        if s = '+' || s = '-' then
          match r2 with
          | d :: r3 => if d.isDigit then some (dropDigits r3) else none
          | [] => none
        else if s.isDigit then some (dropDigits r2)
        else none
      | [] => none
    else some (e :: rest)
  | [] => some []

/-- Consume a JSON number. -/
def jsonNum (l : List Char) : Option (List Char) :=
  let l1 := match l with
    | '-' :: r => r
    | _ => l
  match l1 with
  | '0' :: r =>
    match jsonFrac r with
    | some r2 => jsonExp r2
    | none => none
  | c :: r =>
    if c.isDigit then
      match jsonFrac (dropDigits r) with
      | some r2 => jsonExp r2
      | none => none
    else none
  | [] => none

mutual

/-- Consume one JSON value. -/
def jsonVal : Nat → List Char → Option (List Char)
  | 0, _ => none
  | fuel + 1, l =>
    match skipWs l with
    | '"' :: cs => jsonStrRest (fuel + 1) cs
    | '{' :: cs => jsonObjRest fuel cs true
    | '[' :: cs => jsonArrRest fuel cs true
    | 't' :: 'r' :: 'u' :: 'e' :: cs => some cs
    | 'f' :: 'a' :: 'l' :: 's' :: 'e' :: cs => some cs
    | 'n' :: 'u' :: 'l' :: 'l' :: cs => some cs
    | l2 => jsonNum l2

/-- Consume the members of a JSON object after `{` (or after a `,` when
`first` is false). -/
def jsonObjRest : Nat → List Char → Bool → Option (List Char)
  | 0, _, _ => none
  | fuel + 1, l, first =>
    match skipWs l with
    | '}' :: cs => if first then some cs else none
    | '"' :: cs =>
      match jsonStrRest (fuel + 1) cs with
      | none => none
      | some rest =>
        match skipWs rest with
        | ':' :: rest2 =>
          match jsonVal fuel rest2 with
          | none => none
          | some rest3 =>
            match skipWs rest3 with
            | ',' :: rest4 => jsonObjRest fuel rest4 false
            | '}' :: rest4 => some rest4
            | _ => none
        | _ => none
    | _ => none

/-- Consume the elements of a JSON array after `[` (or after a `,` when
`first` is false). -/
def jsonArrRest : Nat → List Char → Bool → Option (List Char)
  | 0, _, _ => none
  | fuel + 1, l, first =>
    match skipWs l with
    | ']' :: cs => if first then some cs else none
    | l2 =>
      match jsonVal fuel l2 with
      | none => none
      | some rest =>
        match skipWs rest with
        | ',' :: rest2 => jsonArrRest fuel rest2 false
        | ']' :: rest2 => some rest2
        | _ => none

end

/-- Model of JSON-parse success (`JSON.parse` not throwing / `Response.json`
resolving): the whole string is one JSON value. -/
def jsonParses (s : String) : Bool :=
  match jsonVal (s.data.length + 2) s.data with
  | some rest => (skipWs rest).isEmpty
  | none => false

/-! ### Hook emissions -/

/-- The payload of a bridged `KV_SAVE_JSON` message: the decoded JSON value
(represented by its source text, since only which branch produced it
matters here) or the raw-text fallback wrapper `{raw_text: ...}`. -/
inductive BridgePayload where
  | jsonData (body : String)
  | rawText (txt : String)
deriving DecidableEq

/-- An `InterceptedCall` as sent over the bridge by `bridgeSave`. -/
structure InterceptedCall where
  url : String
  data : BridgePayload
deriving DecidableEq

/-- The fetch-wrapper capture decision (injected.js lines 62-115) for a
response with declared content type `ct` and body `body`: `none` means no
`InterceptedCall` is emitted.  When the declared type is JSON but the body
does not parse, `cloned.json()` has already consumed the clone's single-use
body stream, so the fallback `cloned.text()` in the catch handler rejects
and its own `.catch(() => {})` swallows the error: nothing is emitted. -/
def fetchHookEmit (requestUrl pageHref ct body : String) : Option InterceptedCall :=
  if shouldIgnoreUrl requestUrl then none
  else if isTargetUrl requestUrl pageHref then
    if ct ≠ "" && jsIncludes (jsToLower ct) "application/json" then
      if jsonParses body then some ⟨requestUrl, .jsonData body⟩
      else none
    else some ⟨requestUrl, .rawText body⟩
  else none

/-- The per-XHR state kept by the hook: `kv_url` is the `__kv_url` expando
set by the `open` wrapper; `reqUrl` is the URL the underlying request will
actually use (the argument of the last `open`, which the wrapper always
forwards to `origOpen`). -/
structure XhrState where
  kv_url : Option String
  reqUrl : Option String
deriving DecidableEq

/-- Initial state of a fresh `XMLHttpRequest` (no `__kv_url` expando). -/
def xhrInit : XhrState := ⟨none, none⟩

/-- The `open` wrapper (injected.js lines 128-137): ignored-scheme URLs are
forwarded without updating `__kv_url`, so a previously recorded URL
survives. -/
def xhrOpen (st : XhrState) (url : String) : XhrState :=
  if shouldIgnoreUrl url then ⟨st.kv_url, some url⟩
  else ⟨some url, some url⟩

/-- The `responseType` values the `loadend` handler distinguishes: `""` and
`"text"` behave alike, `"json"` uses the platform-parsed `response`, and
anything else leaves `data` null. -/
inductive XhrRespType where
  | text
  | json
  | other
deriving DecidableEq

/-- The `loadend` handler (injected.js lines 142-172).  `jsonResponse` models
`this.response` in `responseType === "json"` mode: the platform-parsed JSON
value (represented by its source text) or `none` when parsing failed (JS
`null`). -/
def xhrLoadend (st : XhrState) (pageHref ct respText : String) (rt : XhrRespType)
    (jsonResponse : Option String) : Option InterceptedCall :=
  match st.kv_url with
  | none => none
  | some url =>
    if url = "" then none
    else if !isTargetUrl url pageHref then none
    else
      match rt with
      | .text =>
        if jsIncludes (jsToLower ct) "application/json" then
          if jsonParses respText then some ⟨url, .jsonData respText⟩
          else some ⟨url, .rawText respText⟩
        else some ⟨url, .rawText respText⟩
      | .json =>
        match jsonResponse with
        | some v => some ⟨url, .jsonData v⟩
        | none => none
      | .other => none

/-! ## `content.js` — page orchestrator -/

/-- The aspects of the rendered page the orchestrator reads at one event:
current URL, extracted body text, count of `a[href*="/kungorelse/K"]` links,
the `main` element's HTML, the document title, and the capture timestamp. -/
structure Page where
  url : String
  textContent : String
  linkCount : Nat
  htmlContent : String
  title : String
  timestamp : String
deriving DecidableEq

/-- The anchored detail-page test
`/^https:\/\/poit\.bolagsverket\.se\/poit-app\/kungorelse\/K[^/]+/i`
(content.js lines 42-44, 110-113, ...). -/
def kungorelseUrlTest (url : String) : Bool :=
  match ciDropPrefixChars url.data "https://poit.bolagsverket.se/poit-app/kungorelse/K".data with
  | some (c :: _) => c ≠ '/'
  | _ => false

/-- The anchored alias-page test
`/^https:\/\/poit\.bolagsverket\.se\/poit-app\/enskild\//i`
(content.js lines 114-117, ...). -/
def enskildUrlTest (url : String) : Bool :=
  (ciDropPrefixChars url.data "https://poit.bolagsverket.se/poit-app/enskild/".data).isSome

/-- `isKungorelsePage` (content.js lines 38-45): must not contain
`/enskild/`, must match the anchored detail pattern. -/
def isKungorelsePage (url : String) : Bool :=
  if urlContainsEnskild url then false else kungorelseUrlTest url

/-- `isEnskildPage` (content.js lines 47-49): `/\/enskild\//i.test(href)`. -/
def isEnskildPage (url : String) : Bool := urlContainsEnskild url

/-- Greedy `[\d\-]+`. -/
def idTail : List Char → List Char
  | [] => []
  | c :: cs => if c.isDigit || c = '-' then c :: idTail cs else []

/-- Case-sensitive prefix match, returning the rest after the prefix. -/
def dropPrefixChars : List Char → List Char → Option (List Char)
  | l, [] => some l
  | [], _ :: _ => none
  | c :: cs, d :: ds => if c = d then dropPrefixChars cs ds else none

/-- Try to match `(?:kungorelse|enskild)\/(K[\d\-]+)` (case sensitive, no
`i` flag) at the head of the list, returning capture group 1. -/
def matchIdAt (l : List Char) : Option String :=
  let tryAfter : List Char → Option String := fun rest =>
    match rest with
    | 'K' :: more =>
      let t := idTail more
      if t.isEmpty then none else some (String.mk ('K' :: t))
    | _ => none
  match dropPrefixChars l "kungorelse/".data with
  | some rest => tryAfter rest
  | none =>
    match dropPrefixChars l "enskild/".data with
    | some rest => tryAfter rest
    | none => none

/-- Leftmost match of the id pattern (JS `String.prototype.match` scans left
to right). -/
def scanForId : List Char → Option String
  | [] => none
  | c :: cs =>
    match matchIdAt (c :: cs) with
    | some s => some s
    | none => scanForId cs

/-- `extractKungorelseId` (content.js lines 65-70) applied to a URL. -/
def extractKungorelseId (url : String) : Option String := scanForId url.data

/-- A `CaptureRecord`: the `KV_SAVE_KUNGORELSE` payload built at
content.js lines 183-190. -/
structure CaptureRecord where
  url : String
  kungorelseId : String
  textContent : String
  htmlContent : String
  timestamp : String
  title : String
deriving DecidableEq

/-- Build the capture payload from the page at timer-fire time
(content.js lines 177-193): `document.title || "Kungörelse " + normalizedId`. -/
def mkRecord (pg : Page) (nid : String) : CaptureRecord :=
  ⟨pg.url, nid, pg.textContent, pg.htmlContent, pg.timestamp,
    if pg.title ≠ "" then pg.title else "Kungörelse " ++ nid⟩

/-- The per-tab orchestrator state: `capturedKungorelseIds`,
`pendingCaptures` (content.js lines 62-63), the multiset of scheduled
capture-check callbacks (each holding its closed-over `normalizedId`), and
the list of `CaptureRecord`s forwarded to the Relay so far. -/
structure CState where
  captured : List String
  pending : List String
  timers : List String
  sent : List CaptureRecord
deriving DecidableEq

/-- The state at content-script load (one content-script lifetime). -/
def initState : CState := ⟨[], [], [], []⟩

/-- The synchronous part of `captureKungorelseData` (content.js lines
72-104): the enskild gates, the detail-page classification, id extraction,
the duplicate check against `captured ∪ pending`, and on success queueing
the id as pending with one scheduled capture-check callback. -/
def classifyStep (pg : Page) (st : CState) : CState :=
  if urlContainsEnskild pg.url then st
  else if !isKungorelsePage pg.url || isEnskildPage pg.url then st
  else
    match extractKungorelseId pg.url with
    | none => st
    | some kid =>
      if setHas st.captured (replaceFirstSlash kid) ||
          setHas st.pending (replaceFirstSlash kid) then st
      else ⟨st.captured, replaceFirstSlash kid :: st.pending,
        replaceFirstSlash kid :: st.timers, st.sent⟩

/-- The capture-check callback body (content.js lines 107-194) firing for
`nid` while the page is in state `pg`: re-classification, the race guard
against `captured`, the content-readiness heuristics, the final enskild
safety check, and on acceptance the move of `nid` from `pending` to
`captured` plus one forwarded `CaptureRecord`. -/
def timerStep (pg : Page) (nid : String) (st : CState) : CState :=
  if !kungorelseUrlTest pg.url || enskildUrlTest pg.url then
    ⟨st.captured, eraseStr st.pending nid, eraseStr st.timers nid, st.sent⟩
  else if setHas st.captured nid then
    ⟨st.captured, eraseStr st.pending nid, eraseStr st.timers nid, st.sent⟩
  else if pg.textContent.length < 500 then
    ⟨st.captured, eraseStr st.pending nid, eraseStr st.timers nid, st.sent⟩
  else if pg.linkCount > 2 && pg.textContent.length < 1000 then
    ⟨st.captured, eraseStr st.pending nid, eraseStr st.timers nid, st.sent⟩
  else if urlContainsEnskild pg.url then
    ⟨st.captured, eraseStr st.pending nid, eraseStr st.timers nid, st.sent⟩
  else
    ⟨nid :: st.captured, eraseStr st.pending nid, eraseStr st.timers nid,
      st.sent ++ [mkRecord pg nid]⟩

/-- One event of the orchestrator's event queue: an invocation of
`captureKungorelseData` (initial load, URL poller, post-alias delay), or
the firing of one scheduled capture-check callback.  The page contents at
each event are environment inputs, so every real interleaving (including
navigation between scheduling and firing) is covered. -/
inductive OStep : CState → CState → Prop where
  | classify (pg : Page) (st : CState) : OStep st (classifyStep pg st)
  | timer (pg : Page) (nid : String) (st : CState) :
      nid ∈ st.timers → OStep st (timerStep pg nid st)

/-- States reachable within one content-script lifetime. -/
inductive Reachable : CState → Prop where
  | init : Reachable initState
  | step {s t : CState} : Reachable s → OStep s t → Reachable t

/-- The ids of the records forwarded so far. -/
def sentIds (s : CState) : List String := s.sent.map CaptureRecord.kungorelseId

/-! ### Relay forwarding of capture records -/

/-- `postKungorelseToLocal` (background.js lines 98-118): the relay-side
safety gate.  `some p` stands for the outbound `POST /save_kungorelse`
network call carrying `p`; `none` means the message was dropped before any
network call. -/
def postKungorelseToLocal (p : CaptureRecord) : Option CaptureRecord :=
  if p.url ≠ "" && urlContainsEnskild p.url then none
  else some p

/-! ### The alias (enskild) page handler -/

/-- What `handleEnskildPage` sees in the DOM: whether the URL classifies as
an alias page, and the `querySelector` result (the link's target, if any)
for each of the three ordered selectors (content.js lines 310-314). -/
structure EnskildDom where
  isEnskild : Bool
  link1 : Option String
  link2 : Option String
  link3 : Option String
deriving DecidableEq

/-- The first selector match in order (the `for` loop of content.js lines
316-328 clicks only the first selector that matches). -/
def firstLink (d : EnskildDom) : Option String :=
  match d.link1 with
  | some l => some l
  | none =>
    match d.link2 with
    | some l => some l
    | none => d.link3

/-- `handleEnskildPage` (content.js lines 292-330): returns the new value of
the `enskildHandled` flag and the link clicked, if any.  The flag is read
and set before the dwell delay; if no selector matches, no click happens
(the function returns `false` and the page stays on the alias URL). -/
def handleEnskild (d : EnskildDom) (handled : Bool) : Bool × Option String :=
  if !d.isEnskild then (handled, none)
  else if handled then (handled, none)
  else (true, firstLink d)

/-- State of one tab for the alias handler: the per-page `enskildHandled`
flag and the number of clicks performed so far. -/
structure EnskildState where
  handled : Bool
  clicks : Nat
deriving DecidableEq

/-- Events affecting the alias handler: a firing of `handleEnskildPage`
(initial load, DOM observer, URL poller), or a URL change, at which the
poller deletes `document.body.dataset.enskildHandled`
(content.js lines 229-232). -/
inductive EEvent where
  | fire (d : EnskildDom)
  | urlChange
deriving DecidableEq

/-- One step of the alias handler. -/
def estep (s : EnskildState) (e : EEvent) : EnskildState :=
  match e with
  | .fire d =>
    let r := handleEnskild d s.handled
    ⟨r.1, s.clicks + (if r.2.isSome then 1 else 0)⟩
  | .urlChange => ⟨false, s.clicks⟩

/-! ## Concrete instances used in witnesses and counterexamples -/

/-- A list entry whose only set field is `namn`. -/
def entryNamed (s : String) : CompanyEntry :=
  ⟨.vstr s, .vother false, .vother false, .vother false, .vother false, .vother false⟩

/-- A list entry with `namn` and `kungorelseid` set. -/
def entryNamedWithId (n i : String) : CompanyEntry :=
  ⟨.vstr n, .vother false, .vother false, .vother false, .vstr i, .vother false⟩

/-- A document URL on the monitored origin (used as resolution base). -/
def pageHrefEx : String := "https://poit.bolagsverket.se/poit-app/sok"

/-- A search-endpoint URL of interest. -/
def tgtUrlEx : String := "https://poit.bolagsverket.se/poit/rest/sokKungorelse"

/-- A string of `n` copies of `a` (to realize text-length thresholds). -/
def mkText (n : Nat) : String := String.mk (List.replicate n 'a')

/-- A rendered detail page with ample content. -/
def pgDetail : Page :=
  ⟨"https://poit.bolagsverket.se/poit-app/kungorelse/K123-45", mkText 1200, 0, "h", "T",
    "2025-01-01T00:00:00Z"⟩

/-- An alias page. -/
def pgAlias : Page :=
  ⟨"https://poit.bolagsverket.se/poit-app/enskild/K123-45", "", 0, "", "", ""⟩

/-- The state after classifying `pgDetail` and firing its capture check:
one record has been forwarded. -/
def stExample : CState := timerStep pgDetail "K123-45" (classifyStep pgDetail initState)

/-- A capture record carrying an alias-page URL (never produced by the
orchestrator; used to exercise the relay gate). -/
def recAlias : CaptureRecord :=
  ⟨"https://poit.bolagsverket.se/poit-app/enskild/K123-45", "K123-45", "", "", "", ""⟩

/-- An XHR first opened on a target URL, then re-opened on an
ignored-scheme URL: the recorded `__kv_url` goes stale. -/
def staleXhr : XhrState := xhrOpen (xhrOpen xhrInit tgtUrlEx) "chrome://newtab"

/-! ## Lemmas about the sanitizer loop -/

/-- Membership survives `eraseStr`. -/
theorem mem_eraseStr {l : List String} {x y : String} (h : y ∈ eraseStr l x) : y ∈ l := by
  induction l with
  | nil => simp [eraseStr] at h
  | cons a as ih =>
    by_cases hax : a = x
    · simp only [eraseStr, if_pos hax] at h
      exact List.mem_cons_of_mem a h
    · simp only [eraseStr, if_neg hax] at h
      rcases List.mem_cons.mp h with rfl | h
      · exact List.mem_cons_self _ _
      · exact List.mem_cons_of_mem _ (ih h)

/-- `eraseStr` preserves `Nodup`. -/
theorem nodup_eraseStr {l : List String} (x : String) (h : l.Nodup) : (eraseStr l x).Nodup := by
  induction l with
  | nil => simp [eraseStr]
  | cons a as ih =>
    rcases List.nodup_cons.mp h with ⟨hna, hnd⟩
    by_cases hax : a = x
    · simpa [eraseStr, hax] using hnd
    · simp only [eraseStr, if_neg hax]
      exact List.nodup_cons.mpr ⟨fun hm => hna (mem_eraseStr hm), ih hnd⟩

/-- On a duplicate-free list, the erased element is gone. -/
theorem not_mem_eraseStr_self {l : List String} (x : String) (h : l.Nodup) :
    x ∉ eraseStr l x := by
  induction l with
  | nil => simp [eraseStr]
  | cons a as ih =>
    rcases List.nodup_cons.mp h with ⟨hna, hnd⟩
    by_cases hax : a = x
    · subst hax
      simpa [eraseStr] using hna
    · simp only [eraseStr, if_neg hax]
      intro hm
      rcases List.mem_cons.mp hm with rfl | hm
      · exact hax rfl
      · exact ih hnd hm

/-- The sanitizer loop is idempotent for every starting pair of seen-sets. -/
theorem sanitizeLoop_idem (l : List Item) : ∀ seenIds seenNames,
    sanitizeLoop (sanitizeLoop l seenIds seenNames) seenIds seenNames
      = sanitizeLoop l seenIds seenNames := by
  induction l with
  | nil => intro ids names; rfl
  | cons it rest ih =>
    intro ids names
    cases it with
    | prim v => simp only [sanitizeLoop, ih ids names]
    | obj e =>
      by_cases h1 : shouldSkipCompany (rawNameOf e) = true
      · simp only [sanitizeLoop, if_pos h1, ih ids names]
      · by_cases h2 : (normalizedIdOf e ≠ "" && setHas ids (normalizedIdOf e)) = true
        · simp only [sanitizeLoop, if_neg h1, if_pos h2, ih ids names]
        · by_cases h3 : (normalizeCompanyName (rawNameOf e) ≠ "" &&
              setHas names (normalizeCompanyName (rawNameOf e))) = true
          · simp only [sanitizeLoop, if_neg h1, if_neg h2, if_pos h3, ih ids names]
          · simp only [sanitizeLoop, if_neg h1, if_neg h2, if_neg h3, ih]

/-- Every object surviving the loop has a non-excluded name. -/
theorem sanitizeLoop_no_excluded : ∀ (l : List Item) (ids names : List String)
    (e : CompanyEntry), Item.obj e ∈ sanitizeLoop l ids names →
    shouldSkipCompany (rawNameOf e) = false := by
  intro l
  induction l with
  | nil => intro ids names e h; simp [sanitizeLoop] at h
  | cons it rest ih =>
    intro ids names e h
    cases it with
    | prim v =>
      simp only [sanitizeLoop] at h
      rcases List.mem_cons.mp h with heq | h
      · exact absurd heq (by simp)
      · exact ih ids names e h
    | obj e2 =>
      by_cases h1 : shouldSkipCompany (rawNameOf e2) = true
      · rw [sanitizeLoop, if_pos h1] at h
        exact ih _ _ _ h
      · by_cases h2 : (normalizedIdOf e2 ≠ "" && setHas ids (normalizedIdOf e2)) = true
        · rw [sanitizeLoop, if_neg h1, if_pos h2] at h
          exact ih _ _ _ h
        · by_cases h3 : (normalizeCompanyName (rawNameOf e2) ≠ "" &&
              setHas names (normalizeCompanyName (rawNameOf e2))) = true
          · rw [sanitizeLoop, if_neg h1, if_neg h2, if_pos h3] at h
            exact ih _ _ _ h
          · rw [sanitizeLoop, if_neg h1, if_neg h2, if_neg h3] at h
            rcases List.mem_cons.mp h with heq | h
            · obtain rfl : e = e2 := by injection heq
              exact Bool.not_eq_true _ ▸ h1
            · exact ih _ _ _ h

/-- An object surviving the loop with a nonempty normalized id was not in
the incoming seen-set. -/
theorem sanitizeLoop_id_not_seen : ∀ (l : List Item) (ids names : List String)
    (e : CompanyEntry), Item.obj e ∈ sanitizeLoop l ids names →
    normalizedIdOf e ≠ "" → normalizedIdOf e ∉ ids := by
  intro l
  induction l with
  | nil => intro ids names e h; simp [sanitizeLoop] at h
  | cons it rest ih =>
    intro ids names e h hne
    cases it with
    | prim v =>
      simp only [sanitizeLoop] at h
      rcases List.mem_cons.mp h with heq | h
      · exact absurd heq (by simp)
      · exact ih ids names e h hne
    | obj e2 =>
      by_cases h1 : shouldSkipCompany (rawNameOf e2) = true
      · rw [sanitizeLoop, if_pos h1] at h
        exact ih _ _ _ h hne
      · by_cases h2 : (normalizedIdOf e2 ≠ "" && setHas ids (normalizedIdOf e2)) = true
        · rw [sanitizeLoop, if_neg h1, if_pos h2] at h
          exact ih _ _ _ h hne
        · by_cases h3 : (normalizeCompanyName (rawNameOf e2) ≠ "" &&
              setHas names (normalizeCompanyName (rawNameOf e2))) = true
          · rw [sanitizeLoop, if_neg h1, if_neg h2, if_pos h3] at h
            exact ih _ _ _ h hne
          · rw [sanitizeLoop, if_neg h1, if_neg h2, if_neg h3] at h
            rcases List.mem_cons.mp h with heq | h
            · obtain rfl : e = e2 := by injection heq
              intro hmem
              apply h2
              simp only [Bool.and_eq_true, decide_eq_true_eq]
              exact ⟨hne, by simpa [setHas] using hmem⟩
            · intro hmem
              have hsub : normalizedIdOf e ∉
                  (if normalizedIdOf e2 ≠ "" then normalizedIdOf e2 :: ids else ids) :=
                ih _ _ _ h hne
              apply hsub
              by_cases hz : normalizedIdOf e2 ≠ ""
              · simpa [hz] using Or.inr hmem
              · simpa [hz] using hmem

/-- The nonempty normalized ids of the objects surviving the loop are
pairwise distinct, provided they avoid the incoming seen-set. -/
theorem sanitizeLoop_ids_nodup : ∀ (l : List Item) (ids names : List String),
    (((sanitizeLoop l ids names).filterMap itemObjId).filter
      (fun i => decide (i ≠ ""))).Nodup := by
  intro l
  induction l with
  | nil => intro ids names; simp [sanitizeLoop]
  | cons it rest ih =>
    intro ids names
    cases it with
    | prim v => simpa only [sanitizeLoop, List.filterMap_cons, itemObjId] using ih ids names
    | obj e2 =>
      by_cases h1 : shouldSkipCompany (rawNameOf e2) = true
      · rw [sanitizeLoop, if_pos h1]; exact ih _ _
      · by_cases h2 : (normalizedIdOf e2 ≠ "" && setHas ids (normalizedIdOf e2)) = true
        · rw [sanitizeLoop, if_neg h1, if_pos h2]; exact ih _ _
        · by_cases h3 : (normalizeCompanyName (rawNameOf e2) ≠ "" &&
              setHas names (normalizeCompanyName (rawNameOf e2))) = true
          · rw [sanitizeLoop, if_neg h1, if_neg h2, if_pos h3]; exact ih _ _
          · rw [sanitizeLoop, if_neg h1, if_neg h2, if_neg h3]
            simp only [List.filterMap_cons, itemObjId]
            by_cases hz : normalizedIdOf e2 = ""
            · simpa [List.filter_cons, hz] using ih _ _
            · rw [List.filter_cons, if_pos (by simpa using hz)]
              refine List.nodup_cons.mpr ⟨?_, ih _ _⟩
              intro hmem
              rcases List.mem_filter.mp hmem with ⟨hmem2, _⟩
              rcases List.mem_filterMap.mp hmem2 with ⟨a, ha, haid⟩
              cases a with
              | prim w => simp [itemObjId] at haid
              | obj e3 =>
                have haid2 : normalizedIdOf e3 = normalizedIdOf e2 := by
                  simpa [itemObjId] using haid
                have := sanitizeLoop_id_not_seen _ _ _ _ ha (by rw [haid2]; exact hz)
                rw [haid2] at this
                exact this (by simp [hz])

/-! ## Lemmas about the orchestrator -/

/-- A classification event either leaves the state unchanged or queues one
fresh id (not captured, not pending) as pending with one timer. -/
theorem classifyStep_eq (pg : Page) (st : CState) :
    classifyStep pg st = st ∨
    ∃ nid, setHas st.captured nid = false ∧ setHas st.pending nid = false ∧
      classifyStep pg st = ⟨st.captured, nid :: st.pending, nid :: st.timers, st.sent⟩ := by
  unfold classifyStep
  split
  next => exact Or.inl rfl
  next =>
    split
    next => exact Or.inl rfl
    next =>
      split
      next => exact Or.inl rfl
      next kid heq =>
        split
        next => exact Or.inl rfl
        next hdup =>
          simp only [Bool.or_eq_true, not_or, Bool.not_eq_true] at hdup
          exact Or.inr ⟨replaceFirstSlash kid, hdup.1, hdup.2, rfl⟩

/-- A capture-check firing either rejects (state change limited to the
`pending`/timer removal of the fired id) or accepts: then the id was not
yet captured, the page URL does not contain `/enskild/`, and exactly one
record (for the current page and the fired id) is appended to `sent`. -/
theorem timerStep_eq (pg : Page) (nid : String) (st : CState) :
    timerStep pg nid st
        = ⟨st.captured, eraseStr st.pending nid, eraseStr st.timers nid, st.sent⟩ ∨
    (setHas st.captured nid = false ∧ urlContainsEnskild pg.url = false ∧
      timerStep pg nid st = ⟨nid :: st.captured, eraseStr st.pending nid,
        eraseStr st.timers nid, st.sent ++ [mkRecord pg nid]⟩) := by
  unfold timerStep
  split
  next => exact Or.inl rfl
  next =>
    split
    next => exact Or.inl rfl
    next h2 =>
      split
      next => exact Or.inl rfl
      next =>
        split
        next => exact Or.inl rfl
        next =>
          split
          next => exact Or.inl rfl
          next h5 =>
            refine Or.inr ⟨?_, ?_, rfl⟩
            · simpa using h2
            · simpa using h5

/-- The orchestrator invariant: `pending` is duplicate-free and disjoint
from `captured`, forwarded ids are pairwise distinct and all captured, and
no forwarded record carries an `/enskild/` URL. -/
theorem reachable_inv : ∀ s, Reachable s →
    s.pending.Nodup ∧
    (∀ i, i ∈ s.pending → i ∉ s.captured) ∧
    (sentIds s).Nodup ∧
    (∀ r, r ∈ s.sent → r.kungorelseId ∈ s.captured) ∧
    (∀ r, r ∈ s.sent → urlContainsEnskild r.url = false) := by
  intro s hs
  induction hs with
  | init => simp [initState, sentIds]
  | step hr hstep ih =>
    rename_i st t
    obtain ⟨ih1, ih2, ih3, ih4, ih5⟩ := ih
    cases hstep with
    | classify pg =>
      rcases classifyStep_eq pg st with heq | ⟨nid, hc, hp, heq⟩
      · rw [heq]
        exact ⟨ih1, ih2, ih3, ih4, ih5⟩
      · rw [heq]
        have hcap : nid ∉ st.captured := by simpa [setHas] using hc
        have hpen : nid ∉ st.pending := by simpa [setHas] using hp
        refine ⟨List.nodup_cons.mpr ⟨hpen, ih1⟩, ?_, ih3, ih4, ih5⟩
        intro i hi
        rcases List.mem_cons.mp hi with rfl | hi
        · exact hcap
        · exact ih2 i hi
    | timer pg nid hmem =>
      rcases timerStep_eq pg nid st with heq | ⟨hc, he, heq⟩
      · rw [heq]
        refine ⟨nodup_eraseStr nid ih1, ?_, ih3, ih4, ih5⟩
        intro i hi
        exact ih2 i (mem_eraseStr hi)
      · rw [heq]
        have hncap : nid ∉ st.captured := by simpa [setHas] using hc
        have hsent : nid ∉ sentIds st := by
          intro hmem2
          rcases List.mem_map.mp hmem2 with ⟨r, hr, hrid⟩
          exact hncap (hrid ▸ ih4 r hr)
        refine ⟨nodup_eraseStr nid ih1, ?_, ?_, ?_, ?_⟩
        · intro i hi
          have hip : i ∈ st.pending := mem_eraseStr hi
          have hine : i ≠ nid := by
            intro hcontra
            subst hcontra
            exact not_mem_eraseStr_self i ih1 hi
          intro hmem2
          rcases List.mem_cons.mp hmem2 with rfl | hmem2
          · exact hine rfl
          · exact ih2 i hip hmem2
        · have : sentIds ⟨nid :: st.captured, eraseStr st.pending nid,
              eraseStr st.timers nid, st.sent ++ [mkRecord pg nid]⟩
              = sentIds st ++ [nid] := by
            simp [sentIds, mkRecord]
          rw [this, List.nodup_append]
          refine ⟨ih3, List.nodup_singleton nid, ?_⟩
          intro i hi hmem2
          have hieq : i = nid := by simpa using hmem2
          exact hsent (hieq ▸ hi)
        · intro r hr
          rcases List.mem_append.mp hr with hr | hr
          · exact List.mem_cons_of_mem nid (ih4 r hr)
          · have : r = mkRecord pg nid := by simpa using hr
            subst this
            simp [mkRecord]
        · intro r hr
          rcases List.mem_append.mp hr with hr | hr
          · exact ih5 r hr
          · have : r = mkRecord pg nid := by simpa using hr
            subst this
            simpa [mkRecord] using he

/-- The state with one forwarded record used by the trace witnesses is
reachable: classify the detail page, then fire its capture check. -/
theorem reachable_stExample : Reachable stExample :=
  Reachable.step
    (Reachable.step Reachable.init (OStep.classify pgDetail initState))
    (OStep.timer pgDetail "K123-45" (classifyStep pgDetail initState) (by decide))

/-! ## Claim theorems -/

/-- C4: `sanitizeCompanyList` is idempotent — applying it to its own output
returns that output unchanged (no entry removed or reordered on the second
pass). -/
theorem c4_sanitize_idempotent :
    ∀ items : List Item, sanitizeCompanyList (sanitizeCompanyList items)
      = sanitizeCompanyList items :=
  fun items => sanitizeLoop_idem items [] []

/-- C5: the sanitizer drops every entry whose name field contains one of
the exclusion keywords case-insensitively (no surviving object has an
excluded name); in particular "Exempel Holding AB" is dropped while
"Exempel Teknik AB" is kept. -/
theorem c5_exclusion_keywords :
    (∀ (items : List Item) (e : CompanyEntry), Item.obj e ∈ sanitizeCompanyList items →
      shouldSkipCompany (rawNameOf e) = false) ∧
    sanitizeCompanyList [Item.obj (entryNamed "Exempel Holding AB"),
        Item.obj (entryNamed "Exempel Teknik AB")]
      = [Item.obj (entryNamed "Exempel Teknik AB")] := by
  constructor
  · intro items e h
    exact sanitizeLoop_no_excluded items [] [] e h
  · decide

/-- Witness for C5 at a concrete surviving entry. -/
theorem c5_exclusion_keywords_witness :
    shouldSkipCompany (rawNameOf (entryNamed "Exempel Teknik AB")) = false :=
  c5_exclusion_keywords.1
    [Item.obj (entryNamed "Exempel Holding AB"), Item.obj (entryNamed "Exempel Teknik AB")]
    (entryNamed "Exempel Teknik AB") (by decide)

/-- C6: id normalization (trim, uppercase, `/`→`-`) maps "K1234-25" and
"k1234/25" to the same id "K1234-25"; with two such entries in one list
only the first is kept; and in general no two surviving objects share a
nonempty normalized id. -/
theorem c6_id_normalization_dedup :
    jsNormalizeId "K1234-25" = "K1234-25" ∧
    jsNormalizeId "k1234/25" = "K1234-25" ∧
    sanitizeCompanyList [Item.obj (entryNamedWithId "Alpha AB" "K1234-25"),
        Item.obj (entryNamedWithId "Beta AB" "k1234/25")]
      = [Item.obj (entryNamedWithId "Alpha AB" "K1234-25")] ∧
    (∀ items : List Item, (((sanitizeCompanyList items).filterMap itemObjId).filter
      (fun i => decide (i ≠ ""))).Nodup) := by
  refine ⟨by decide, by decide, by decide, ?_⟩
  intro items
  exact sanitizeLoop_ids_nodup items [] []

/-- C1: a `CaptureRecord` whose URL matches the alias-page pattern is never
forwarded: classification on an alias URL changes nothing (no queuing), a
capture check firing on an alias URL forwards nothing (both for the
anchored re-classification gate and for the `/enskild/`-substring final
gate), no reachable state has a forwarded record with an alias URL, and
the relay drops an alias-URL payload before any network call. -/
theorem c1_alias_pages_never_forwarded :
    (∀ (pg : Page) (st : CState), urlContainsEnskild pg.url = true →
      classifyStep pg st = st) ∧
    (∀ (pg : Page) (nid : String) (st : CState), enskildUrlTest pg.url = true →
      (timerStep pg nid st).sent = st.sent) ∧
    (∀ (pg : Page) (nid : String) (st : CState), urlContainsEnskild pg.url = true →
      (timerStep pg nid st).sent = st.sent) ∧
    (∀ s, Reachable s → ∀ r, r ∈ s.sent → urlContainsEnskild r.url = false) ∧
    (∀ p : CaptureRecord, urlContainsEnskild p.url = true →
      postKungorelseToLocal p = none) := by
  refine ⟨?_, ?_, ?_, ?_, ?_⟩
  · intro pg st h
    unfold classifyStep
    rw [if_pos h]
  · intro pg nid st h
    unfold timerStep
    rw [if_pos (by simp [h])]
  · intro pg nid st h
    rcases timerStep_eq pg nid st with heq | ⟨_, he, _⟩
    · rw [heq]
    · rw [he] at h
      exact absurd h (by simp)
  · intro s hs
    exact (reachable_inv s hs).2.2.2.2
  · intro p h
    have hne : p.url ≠ "" := by
      intro h0
      rw [h0] at h
      exact absurd h (by decide)
    simp [postKungorelseToLocal, h, hne]

/-- Witness for C1: the classification gate and the relay gate at concrete
alias-URL inputs. -/
theorem c1_alias_pages_never_forwarded_witness :
    classifyStep pgAlias initState = initState ∧ postKungorelseToLocal recAlias = none :=
  ⟨c1_alias_pages_never_forwarded.1 pgAlias initState (by decide),
    c1_alias_pages_never_forwarded.2.2.2.2 recAlias (by decide)⟩

/-- C2: in every reachable state of one content-script lifetime, the
forwarded ids are pairwise distinct (at most one `CaptureRecord` per id)
and no id is in both the captured set and the pending set. -/
theorem c2_at_most_once_per_id :
    ∀ s, Reachable s →
      (sentIds s).Nodup ∧ ∀ i, ¬(i ∈ s.captured ∧ i ∈ s.pending) := by
  intro s hs
  obtain ⟨_, h2, h3, _, _⟩ := reachable_inv s hs
  exact ⟨h3, fun i hi => h2 i hi.2 hi.1⟩

/-- Witness for C2 at a concrete reachable state with one forwarded record. -/
theorem c2_at_most_once_per_id_witness :
    (sentIds stExample).Nodup ∧
    ¬("K123-45" ∈ stExample.captured ∧ "K123-45" ∈ stExample.pending) :=
  ⟨(c2_at_most_once_per_id stExample reachable_stExample).1,
    (c2_at_most_once_per_id stExample reachable_stExample).2 "K123-45"⟩

/-- C7: at the capture check, a detail page (still classified as such, id
not yet captured, at most 2 detail links) with 300 characters of extracted
text is rejected — nothing is forwarded — while the same page with 600
characters is accepted and forwarded. -/
theorem c7_content_readiness :
    ∀ (st : CState) (nid url html title ts t300 t600 : String) (links : Nat),
      kungorelseUrlTest url = true → enskildUrlTest url = false →
      urlContainsEnskild url = false → setHas st.captured nid = false →
      links ≤ 2 → t300.length = 300 → t600.length = 600 →
      (timerStep ⟨url, t300, links, html, title, ts⟩ nid st).sent = st.sent ∧
      (timerStep ⟨url, t600, links, html, title, ts⟩ nid st).sent
        = st.sent ++ [mkRecord ⟨url, t600, links, html, title, ts⟩ nid] := by
  intro st nid url html title ts t300 t600 links hk he hce hcap hl h3 h6
  have hnl : ¬(links > 2) := by omega
  constructor
  · unfold timerStep
    rw [if_neg (by simp [hk, he]), if_neg (by simp [hcap]), if_pos (by simp [h3])]
  · unfold timerStep
    rw [if_neg (by simp [hk, he]), if_neg (by simp [hcap]),
      if_neg (by simp [h6]), if_neg (by simp [h6, hnl]), if_neg (by simp [hce])]

/-- Witness for C7 at concrete 300- and 600-character pages. -/
theorem c7_content_readiness_witness :
    (timerStep ⟨pgDetail.url, mkText 300, 0, "h", "T", "ts"⟩ "K123-45" initState).sent
        = initState.sent ∧
    (timerStep ⟨pgDetail.url, mkText 600, 0, "h", "T", "ts"⟩ "K123-45" initState).sent
        = initState.sent ++
          [mkRecord ⟨pgDetail.url, mkText 600, 0, "h", "T", "ts"⟩ "K123-45"] :=
  c7_content_readiness initState "K123-45" pgDetail.url "h" "T" "ts" (mkText 300)
    (mkText 600) 0 (by decide) (by decide) (by decide) (by decide) (by decide)
    (by decide) (by decide)

/-- With the handled flag set, a handler firing changes nothing and clicks
nothing. -/
theorem handleEnskild_handled (d : EnskildDom) : handleEnskild d true = (true, none) := by
  unfold handleEnskild
  split
  · rfl
  · rfl

/-- Bound on clicks over any run of handler firings with no URL change:
at most one click if the flag starts clear, none if it starts set. -/
theorem estep_clicks_le : ∀ (evs : List EEvent) (s : EnskildState),
    (∀ e, e ∈ evs → e ≠ EEvent.urlChange) →
    (evs.foldl estep s).clicks ≤ s.clicks + (if s.handled then 0 else 1) := by
  intro evs
  induction evs with
  | nil =>
    intro s _
    simp only [List.foldl_nil]
    split
    · omega
    · omega
  | cons e rest ih =>
    intro s h
    have hrest : ∀ x, x ∈ rest → x ≠ EEvent.urlChange := fun x hx =>
      h x (List.mem_cons_of_mem _ hx)
    cases e with
    | urlChange => exact absurd rfl (h _ (List.mem_cons_self _ _))
    | fire d =>
      rw [List.foldl_cons]
      have hb := ih (estep s (.fire d)) hrest
      by_cases hh : s.handled = true
      · have hstep : estep s (.fire d) = s := by
          obtain ⟨sh, sc⟩ := s
          simp only [EnskildState.handled] at hh
          subst hh
          simp [estep, handleEnskild_handled]
        rw [hstep] at hb
        rw [hstep]
        exact hb
      · have hh2 : s.handled = false := by simpa using hh
        by_cases hd : d.isEnskild = true
        · have hstep : estep s (.fire d)
              = ⟨true, s.clicks + (if (firstLink d).isSome then 1 else 0)⟩ := by
            simp [estep, handleEnskild, hd, hh2]
          rw [hstep] at hb
          rw [hstep, hh2]
          simp only [EnskildState.handled, EnskildState.clicks] at hb ⊢
          simp at hb ⊢
          have hk : (if (firstLink d).isSome then 1 else 0) ≤ 1 := by
            split
            · omega
            · omega
          omega
        · have hstep : estep s (.fire d) = ⟨false, s.clicks⟩ := by
            simp [estep, handleEnskild, hd, hh2]
          rw [hstep] at hb
          rw [hstep, hh2]
          simp at hb ⊢
          omega

/-- C9: on an alias page the handler clicks at most once per page instance:
firings while the handled flag is set do nothing; if no selector matches,
the handler sets the flag but clicks nothing (the page stays on the alias
URL); any run of firings without a URL change performs at most one click;
and the flag is cleared only by a URL-change event. -/
theorem c9_alias_click_once :
    (∀ (d : EnskildDom) (s : EnskildState), s.handled = true → estep s (.fire d) = s) ∧
    (∀ d : EnskildDom, d.isEnskild = true → firstLink d = none →
      handleEnskild d false = (true, none)) ∧
    (∀ evs : List EEvent, (∀ e, e ∈ evs → e ≠ EEvent.urlChange) →
      (evs.foldl estep ⟨false, 0⟩).clicks ≤ 1) ∧
    (∀ (s : EnskildState) (e : EEvent), (estep s e).handled = false →
      s.handled = false ∨ e = EEvent.urlChange) := by
  refine ⟨?_, ?_, ?_, ?_⟩
  · intro d s h
    obtain ⟨sh, sc⟩ := s
    simp only [EnskildState.handled] at h
    subst h
    simp [estep, handleEnskild_handled]
  · intro d hd hl
    simp [handleEnskild, hd, hl]
  · intro evs h
    simpa using estep_clicks_le evs ⟨false, 0⟩ h
  · intro s e h
    cases e with
    | urlChange => exact Or.inr rfl
    | fire d =>
      left
      by_cases hh : s.handled = true
      · exfalso
        have h2 : (estep s (EEvent.fire d)).handled = true := by
          obtain ⟨sh, sc⟩ := s
          simp only [EnskildState.handled] at hh
          subst hh
          simp [estep, handleEnskild_handled]
        rw [h2] at h
        exact absurd h (by decide)
      · simpa using hh

/-- Witness for C9: a firing with the flag already set is a no-op. -/
theorem c9_alias_click_once_witness :
    estep ⟨true, 0⟩ (EEvent.fire ⟨true, some "link", none, none⟩) = ⟨true, 0⟩ :=
  c9_alias_click_once.1 ⟨true, some "link", none, none⟩ ⟨true, 0⟩ rfl

/-- C10: `sanitizePayload` changes at most the `data` field: `url` and all
other fields are returned unchanged; when `data` wraps an inner list, the
wrapper's other fields survive; and when `data` is neither a list nor an
object containing a `data` list, the whole payload is returned unchanged. -/
theorem c10_sanitize_payload_frame :
    ∀ p : PayloadObj,
      (sanitizePayload p).url = p.url ∧ (sanitizePayload p).extra = p.extra ∧
      (∀ inner meta, p.data = DataField.wrapped inner meta →
        (sanitizePayload p).data = DataField.wrapped (sanitizeCompanyList inner) meta) ∧
      (∀ v, p.data = DataField.other v → sanitizePayload p = p) := by
  intro p
  obtain ⟨u, d, ex⟩ := p
  cases d with
  | list items =>
    exact ⟨rfl, rfl, fun inner meta h => by simp at h, fun v h => by simp at h⟩
  | wrapped inner meta =>
    refine ⟨rfl, rfl, fun i2 m2 h => ?_, fun v h => by simp at h⟩
    have h2 : DataField.wrapped inner meta = DataField.wrapped i2 m2 := by simpa using h
    injection h2 with hi hm
    subst hi
    subst hm
    rfl
  | other v =>
    exact ⟨rfl, rfl, fun i2 m2 h => by simp at h, fun w h => rfl⟩

/-- Witness for C10: a payload whose `data` is not list-shaped is returned
unchanged. -/
theorem c10_sanitize_payload_frame_witness :
    sanitizePayload ⟨"u", DataField.other (JSVal.vstr "z"), []⟩
      = ⟨"u", DataField.other (JSVal.vstr "z"), []⟩ :=
  (c10_sanitize_payload_frame ⟨"u", DataField.other (JSVal.vstr "z"), []⟩).2.2.2
    (JSVal.vstr "z") rfl

/-- C3 counterexample: re-opening an XHR with an ignored-scheme URL leaves
the previously recorded target URL in `__kv_url`, so the network call whose
URL is `chrome://newtab` (an ignored scheme) still triggers an
`InterceptedCall` emission at `loadend` — the claim's universal statement
fails on this input. -/
theorem c3_stale_xhr_counterexample :
    staleXhr.reqUrl = some "chrome://newtab" ∧
    shouldIgnoreUrl "chrome://newtab" = true ∧
    xhrLoadend staleXhr pageHrefEx "" "hello" XhrRespType.text none
      = some ⟨tgtUrlEx, BridgePayload.rawText "hello"⟩ := by
  refine ⟨by decide, by decide, by decide⟩

/-- C3 amended: no emission ever carries a URL failing the host, path or
scheme tests — for fetch this is the call's own URL, so the claim holds as
stated there; for XHR it is the *recorded* URL (the last non-ignored URL
passed to `open`), which equals the call's URL whenever the last `open` was
not on an ignored-scheme URL. -/
theorem c3_hook_no_emit_amended :
    (∀ u base ct body, shouldIgnoreUrl u = true → fetchHookEmit u base ct body = none) ∧
    (∀ u base ct body, isTargetUrl u base = false → fetchHookEmit u base ct body = none) ∧
    (∀ (st : XhrState) (base ct txt : String) (rt : XhrRespType) (jr : Option String)
      (u : String), st.kv_url = some u → shouldIgnoreUrl u = true →
      xhrLoadend st base ct txt rt jr = none) ∧
    (∀ (st : XhrState) (base ct txt : String) (rt : XhrRespType) (jr : Option String)
      (u : String), st.kv_url = some u → isTargetUrl u base = false →
      xhrLoadend st base ct txt rt jr = none) ∧
    (∀ (base ct txt : String) (rt : XhrRespType) (jr : Option String),
      xhrLoadend xhrInit base ct txt rt jr = none) ∧
    (∀ (st : XhrState) (u : String), shouldIgnoreUrl u = false →
      xhrOpen st u = ⟨some u, some u⟩) := by
  refine ⟨?_, ?_, ?_, ?_, ?_, ?_⟩
  · intro u base ct body h
    simp [fetchHookEmit, h]
  · intro u base ct body h
    simp [fetchHookEmit, h]
  · intro st base ct txt rt jr u hst h
    simp [xhrLoadend, hst, isTargetUrl, h]
  · intro st base ct txt rt jr u hst h
    simp [xhrLoadend, hst, h]
  · intro base ct txt rt jr
    simp [xhrLoadend, xhrInit]
  · intro st u h
    simp [xhrOpen, h]

/-- Witness for the amended C3 at a concrete ignored-scheme fetch URL. -/
theorem c3_hook_no_emit_amended_witness :
    fetchHookEmit "chrome://newtab" pageHrefEx "" "x" = none :=
  c3_hook_no_emit_amended.1 "chrome://newtab" pageHrefEx "" "x" (by decide)

/-- C8 (code behaviour at the failing input): for a response of interest
with a declared JSON content type whose body does not parse, the fetch hook
emits nothing — the clone's body was already consumed by `json()`, so the
raw-text fallback can never fire — while a parsing body is emitted as JSON,
a non-JSON content type is emitted as a raw-text wrapper, and the XHR path
does fall back to the raw-text wrapper on a decode failure. -/
theorem c8_fetch_decode_failure_behavior :
    fetchHookEmit tgtUrlEx pageHrefEx "application/json" "not json" = none ∧
    fetchHookEmit tgtUrlEx pageHrefEx "application/json" "[1,2]"
      = some ⟨tgtUrlEx, BridgePayload.jsonData "[1,2]"⟩ ∧
    fetchHookEmit tgtUrlEx pageHrefEx "text/plain" "not json"
      = some ⟨tgtUrlEx, BridgePayload.rawText "not json"⟩ ∧
    xhrLoadend ⟨some tgtUrlEx, some tgtUrlEx⟩ pageHrefEx "application/json" "not json"
        XhrRespType.text none
      = some ⟨tgtUrlEx, BridgePayload.rawText "not json"⟩ := by
  refine ⟨by decide, by decide, by decide, by decide⟩

end PoIT
